import Mathlib

/-!
# SmartPhotoGallery: verification of the photo-indexing and search core

A shallow embedding of the Python sources `photo_manager.py`, `database.py`,
`caption_generator.py` and `ui_manager.py` (the incremental photo-indexing and
hybrid search pipeline), together with proofs settling the specified claims.

Modelling conventions:
* Python strings are modelled as `List Char` (`PyStr`); the string operations
  used by the sources (`lower`, `strip`, `split`, `endswith`, substring test,
  lexicographic comparison) are defined below by structural recursion, mirroring
  CPython semantics on the ASCII data the program manipulates.
* `datetime` values are modelled as integer POSIX timestamps (`Int`);
  `datetime.isoformat()` is modelled by `isoformat`, an injective decimal
  rendering of the timestamp (the sources only ever store and compare these
  strings for equality, never parse them back).
* The SQLite tables of `database.py` are modelled as in-memory lists:
  `images` (keyed by `file_path` with INSERT-OR-REPLACE semantics) and `faces`
  (append-only rows).  `pickle.dumps`/`pickle.loads` of a face encoding is
  modelled as the identity: for one value the dump is deterministic and
  `loads` inverts it, so BLOB equality coincides with value equality.
* The opaque ML collaborators (BLIP/Florence caption models, the sentence
  embedding model) are modelled as function-valued parameters; floating point
  cosine similarities are modelled as rationals, which preserves the order
  comparisons the selection logic performs.
* `numpy.argsort` is modelled as the stable ascending argsort (ties broken by
  ascending index), and Python's stable `list.sort(key=..., reverse=...)` as a
  stable insertion sort with the corresponding total preorder.
-/

set_option linter.unnecessarySimpa false

abbrev PyStr := List Char

/-- ASCII lower-casing of a character, as `str.lower` acts on the ASCII data
the program manipulates. -/
def lowerChar (c : Char) : Char :=
  if 'A' ≤ c ∧ c ≤ 'Z' then Char.ofNat (c.toNat + 32) else c

/-- `str.lower()`. -/
def pyLower (s : PyStr) : PyStr := s.map lowerChar

/-- `str.endswith(suffix)`. -/
def pyEndsWith (s suffix : PyStr) : Bool := List.isSuffixOf suffix s

/-- The `in` operator on strings: substring containment. -/
def pyContains : PyStr → PyStr → Bool
  | [], needle => List.isPrefixOf needle []
  | c :: rest, needle => List.isPrefixOf needle (c :: rest) || pyContains rest needle

/-- `str.strip()`: drop leading and trailing whitespace. -/
def pyStrip (s : PyStr) : PyStr :=
  ((s.dropWhile Char.isWhitespace).reverse.dropWhile Char.isWhitespace).reverse

/-- Fuel-driven worker for `pySplitOn`; the fuel dominates the length of the
remaining input, so the recursion is structural and kernel-reducible. -/
def pySplitOnGo (sep : PyStr) : Nat → PyStr → PyStr → List PyStr
  | _, [], acc => [acc.reverse]
  | 0, _ :: _, acc => [acc.reverse]
  | fuel + 1, c :: rest, acc =>
    if List.isPrefixOf sep (c :: rest) then
      acc.reverse :: pySplitOnGo sep fuel (rest.drop (sep.length - 1)) []
    else
      pySplitOnGo sep fuel rest (c :: acc)

/-- `str.split(sep)` for a non-empty separator: split on every non-overlapping
occurrence, scanning left to right, keeping empty parts (CPython semantics,
e.g. `"with tina".split("with") == ['', ' tina']`). -/
def pySplitOn (s sep : PyStr) : List PyStr := pySplitOnGo sep s.length s []

/-- Worker for `pyWords`. -/
def pyWordsGo : PyStr → PyStr → List PyStr
  | [], acc => if acc.isEmpty then [] else [acc.reverse]
  | c :: rest, acc =>
    if c.isWhitespace then
      if acc.isEmpty then pyWordsGo rest [] else acc.reverse :: pyWordsGo rest []
    else pyWordsGo rest (c :: acc)

/-- `str.split()` with no argument: split on whitespace runs, discarding empty
parts. -/
def pyWords (s : PyStr) : List PyStr := pyWordsGo s []

/-- Lexicographic `≤` on strings by code point, as CPython compares `str`
(`Char`'s order is by code point). -/
def lexLe : PyStr → PyStr → Bool
  | [], _ => true
  | _ :: _, [] => false
  | a :: as_, b :: bs =>
    if a < b then true
    else if b < a then false
    else lexLe as_ bs

/-- Decimal rendering of a natural number (fuel-driven, least digit first). -/
def natRevDigits : Nat → Nat → List Char
  | 0, _ => []
  | _ + 1, 0 => []
  | fuel + 1, n + 1 =>
    Char.ofNat (48 + (n + 1) % 10) :: natRevDigits fuel ((n + 1) / 10)

/-- Model of `datetime.isoformat()`: an injective decimal rendering of the
integer timestamp (the sources only store these strings and compare them for
equality). -/
def isoformat (t : Int) : PyStr :=
  match t with
  | .ofNat 0 => ['0']
  | .ofNat (n + 1) => (natRevDigits (n + 1) (n + 1)).reverse
  | .negSucc n => '-' :: (natRevDigits (n + 1) (n + 1)).reverse

/-! ## Data model (`database.py` tables and the in-memory photo tuple) -/

/-- A row of the `images` table: columns
`(file_path, date, size, location, tags, detailed_caption)`. -/
structure ImageRecord where
  file_path : PyStr
  date : PyStr
  size : Nat
  location : PyStr
  tags : PyStr
  detailed_caption : Option PyStr
deriving DecidableEq, Repr

/-- A row of the `faces` table: columns
`(file_path, encoding, name, top, right, bottom, left)`.  The pickled
encoding BLOB is modelled by the encoding vector itself. -/
structure FaceRow where
  file_path : PyStr
  encoding : List Int
  name : Option PyStr
  top : Int
  right : Int
  bottom : Int
  left : Int
deriving DecidableEq, Repr

/-- The two tables of `ImageDatabase`. -/
structure Db where
  images : List ImageRecord
  faces : List FaceRow
deriving DecidableEq, Repr

/-- One element of `PhotoManager.photos`:
the tuple `(file_path, date, size, location, tags)`. -/
structure Photo where
  file_path : PyStr
  date : Int
  size : Nat
  location : PyStr
  tags : PyStr
deriving DecidableEq, Repr

/-! ## `database.py` -/

/-- `ImageDatabase.add_image` (database.py:48-60): INSERT OR REPLACE keyed by
`file_path`.  Modelled by removing any row with the same path and appending
the new row. -/
def add_image (db : Db) (r : ImageRecord) : Db :=
  { db with images := (db.images.filter (fun q => q.file_path ≠ r.file_path)) ++ [r] }

/-- `ImageDatabase.get_image_metadata` (database.py:62-84): the row with the
given path, if any. -/
def get_image_metadata (db : Db) (path : PyStr) : Option ImageRecord :=
  db.images.find? (fun r => r.file_path = path)

/-- `ImageDatabase.get_all_metadata` (database.py:86-110): a snapshot of the
whole `images` table. -/
def get_all_metadata (db : Db) : List ImageRecord := db.images

/-- `ImageDatabase.add_face` (database.py:112-125): append a face row. -/
def add_face (db : Db) (path : PyStr) (enc : List Int) (name : Option PyStr)
    (top right bottom left : Int) : Db :=
  { db with faces := db.faces ++ [⟨path, enc, name, top, right, bottom, left⟩] }

/-- `ImageDatabase.get_faces` (database.py:127-152): all face rows with the
given path, in insertion (rowid) order. -/
def get_faces (db : Db) (path : PyStr) : List FaceRow :=
  db.faces.filter (fun f => f.file_path = path)

/-- `ImageDatabase.update_face_name` (database.py:154-167):
`UPDATE faces SET name = ? WHERE file_path = ? AND encoding = ?` — the rename
matches rows by file path plus exact encoding bytes. -/
def update_face_name (db : Db) (path : PyStr) (enc : List Int) (name : PyStr) : Db :=
  { db with
    faces := db.faces.map (fun f =>
      if f.file_path = path ∧ f.encoding = enc then { f with name := some name } else f) }

/-- Modelled from the spec: `get_images_by_tag`, which `search_photos`
(photo_manager.py:249) calls on the database, is absent from `database.py`;
per spec §4.4 "tag terms are matched via exact/substring lookup against each
photo's stored tags field (case-insensitive)".  Returns the paths of matching
image rows. -/
def get_images_by_tag (db : Db) (tag : PyStr) : List PyStr :=
  (db.images.filter (fun r => pyContains (pyLower r.tags) tag)).map (fun r => r.file_path)

/-- Modelled from the spec: `get_images_by_person`, which `search_photos`
(photo_manager.py:255) calls on the database, is absent from `database.py`;
per spec §4.4 "person terms are matched via exact lookup against FaceRecord
names" (the query side is lower-cased by the caller, and spec §8 requires
`resolve("with Tina")` to match the stored name `"Tina"`, so the exact lookup
is case-insensitive).  Returns the paths of matching face rows. -/
def get_images_by_person (db : Db) (name : PyStr) : List PyStr :=
  (db.faces.filter (fun f =>
    match f.name with
    | some s => pyLower s = name
    | none => false)).map (fun f => f.file_path)

/-! ## `photo_manager.py`: sorting -/

/-- The sort key of the BY_NAME mode: `lambda x: x[0].lower()`
(photo_manager.py:223). -/
def nameKey (p : Photo) : PyStr := pyLower p.file_path

/-- The total preorder realising `list.sort(key=lambda x: x[0].lower())`. -/
def nameLe (a b : Photo) : Prop := lexLe (nameKey a) (nameKey b) = true

instance : DecidableRel nameLe := fun _ _ => by unfold nameLe; infer_instance

/-- Python's stable `list.sort(key=key)` (ascending): realised as a stable
insertion sort under the total preorder `key a ≤ key b`; equal keys keep
their original relative order, exactly as CPython's stable sort does. -/
def pySortByNameKey (l : List Photo) : List Photo :=
  List.insertionSort nameLe l

/-- Python's stable `list.sort(key=lambda x: x[1], reverse=True)` (descending
by date): stable, so equal dates keep their original relative order. -/
def pySortByDateDesc (l : List Photo) : List Photo :=
  List.insertionSort (fun a b => b.date ≤ a.date) l

/-- Python's stable `list.sort(key=lambda x: x[2], reverse=True)` (descending
by size): stable, so equal sizes keep their original relative order. -/
def pySortBySizeDesc (l : List Photo) : List Photo :=
  List.insertionSort (fun a b => b.size ≤ a.size) l

/-- The mutable state of a `PhotoManager`: the resolved photo collection and
the current sort mode. -/
structure MState where
  photos : List Photo
  current_sort : PyStr
deriving DecidableEq, Repr

/-- `PhotoManager.set_sort` (photo_manager.py:214-226): records the sort mode
and stably sorts the collection in place ("Date" descending by modification
time, "Size" descending by byte size, "Name" ascending by lower-cased path);
any other mode only records itself. -/
def set_sort (sort_by : PyStr) (st : MState) : MState :=
  let st' := { st with current_sort := sort_by }
  if sort_by = "Date".data then { st' with photos := pySortByDateDesc st'.photos }
  else if sort_by = "Size".data then { st' with photos := pySortBySizeDesc st'.photos }
  else if sort_by = "Name".data then { st' with photos := pySortByNameKey st'.photos }
  else st'

/-! ## `photo_manager.py`: folder scan and reconciliation (`load_photos`) -/

/-- One entry produced by `os.walk`: the bare file name (used for the
extension filter), the joined path, and the `os.stat` result — `statOk =
false` models a per-file `OSError` from `os.stat`. -/
structure FileEntry where
  fileName : PyStr
  path : PyStr
  mtime : Int
  size : Nat
  statOk : Bool
deriving DecidableEq, Repr

/-- A folder as seen by `load_photos`: the three pre-checks and the walk
output. -/
structure FsFolder where
  pathExists : Bool
  isDir : Bool
  readable : Bool
  files : List FileEntry
deriving DecidableEq, Repr

/-- `file.lower().endswith(('.jpg', '.jpeg', '.png'))`
(photo_manager.py:77). -/
def isImageFile (name : PyStr) : Bool :=
  pyEndsWith (pyLower name) ('.' :: ['j', 'p', 'g']) ||
  pyEndsWith (pyLower name) ('.' :: ['j', 'p', 'e', 'g']) ||
  pyEndsWith (pyLower name) ('.' :: ['p', 'n', 'g'])

/-- The dict comprehension
`{m["file_path"]: m for m in self.db.get_all_metadata()}`
(photo_manager.py:62): on duplicate keys the last row wins. -/
def lookupMeta (images : List ImageRecord) (path : PyStr) : Option ImageRecord :=
  images.reverse.find? (fun r => r.file_path = path)

/-- The per-file body of the reconciliation loop (photo_manager.py:84-92):
if a stored record exists for the path, its location and tags are used
verbatim; otherwise location defaults to `"Unknown"` and tags to the empty
string.  (The loop never consults the stored `date` column and never calls
the caption model.) -/
def resolveEntry (meta : Option ImageRecord) (path : PyStr) (mtime : Int) (size : Nat) : Photo :=
  match meta with
  | some m => ⟨path, mtime, size, m.location, m.tags⟩
  | none => ⟨path, mtime, size, "Unknown".data, []⟩

/-- The scan-and-reconcile loop of `load_photos` (photo_manager.py:74-95):
walk entries are kept when the extension filter matches and `os.stat`
succeeds (a per-file failure is logged and skipped). -/
def scanPhotos (files : List FileEntry) (images : List ImageRecord) : List Photo :=
  files.filterMap (fun e =>
    if isImageFile e.fileName ∧ e.statOk then
      some (resolveEntry (lookupMeta images e.path) e.path e.mtime e.size)
    else none)

/-- The error taxonomy of `load_photos`: the three directory pre-checks
(photo_manager.py:53-58) and the empty-scan check (photo_manager.py:97-100,
`ValueError("No valid images found in folder")`, the spec's
`EmptyFolderError`). -/
inductive LoadError where
  | folderMissing
  | notADirectory
  | noReadPermission
  | emptyFolder
deriving DecidableEq, Repr

/-- `PhotoManager.load_photos` (photo_manager.py:50-131) as a state
transformer over the manager state, reading the manager's database `db`:
the directory checks and the empty-scan check all raise before `self.photos`
is reassigned (photo_manager.py:102); on success the collection is replaced
and re-sorted with the persisting sort mode
(`self.set_sort(self.current_sort)`).  The background thread starts are
modelled separately (`process_metadata`). -/
def load_photos (fs : FsFolder) (db : Db) (st : MState) : MState × Except LoadError Unit :=
  if fs.pathExists = false then (st, .error .folderMissing)
  else if fs.isDir = false then (st, .error .notADirectory)
  else if fs.readable = false then (st, .error .noReadPermission)
  else
    let photos := scanPhotos fs.files (get_all_metadata db)
    if photos = [] then (st, .error .emptyFolder)
    else
      let st1 := { st with photos := photos }
      (set_sort st1.current_sort st1, .ok ())

/-! ## `photo_manager.py`: search (`search_photos`) -/

/-- The cosine-similarity threshold `0.3` of the semantic fallback
(photo_manager.py:274). -/
def simThreshold : ℚ := mkRat 3 10

/-- `similarities[i]` (indices produced by `argsort` are always in bounds). -/
def simAt (sims : List ℚ) (i : Nat) : ℚ := sims.getD i 0

/-- The comparison realising `numpy.argsort(similarities)` as the stable
ascending argsort: ascending similarity, ties broken by ascending original
index. -/
def argsortLe (sims : List ℚ) (i j : Nat) : Prop :=
  simAt sims i < simAt sims j ∨ (simAt sims i = simAt sims j ∧ i ≤ j)

instance (sims : List ℚ) : DecidableRel (argsortLe sims) := fun _ _ => by
  unfold argsortLe; infer_instance

/-- `numpy.argsort(similarities)` (photo_manager.py:273), modelled as the
stable ascending argsort of the index range. -/
def argsortAsc (sims : List ℚ) : List Nat :=
  List.insertionSort (argsortLe sims) (List.range sims.length)

/-- The index selection of the semantic fallback (photo_manager.py:272-274):
`top_indices = np.argsort(similarities)[::-1][:top_k]` followed by the
comprehension filter `similarities[i] > 0.3`; `top_k = min(10, len(photos))`. -/
def semanticSelIdx (nPhotos : Nat) (sims : List ℚ) : List Nat :=
  (((argsortAsc sims).reverse).take (min 10 nPhotos)).filter
    (fun i => simThreshold < simAt sims i)

/-- `results = [self.photos[i] for i in top_indices if similarities[i] > 0.3]`
(photo_manager.py:274). -/
def semanticSelect (photos : List Photo) (sims : List ℚ) : List Photo :=
  (semanticSelIdx photos.length sims).filterMap (fun i => photos.get? i)

/-- The person-name parse of `search_photos` (photo_manager.py:238-242):
if `"with"` occurs in the lower-cased query, the segment between its first
and second occurrences is split on `"and"` and each part stripped. -/
def queryPersons (query : PyStr) : List PyStr :=
  match pySplitOn (pyLower query) "with".data with
  | _ :: p1 :: _ => (pySplitOn p1 "and".data).map pyStrip
  | _ => []

/-- `tags = query_lower.split()` (photo_manager.py:245). -/
def queryTokens (query : PyStr) : List PyStr := pyWords (pyLower query)

/-- The accumulated tag matches (photo_manager.py:246-250): every whitespace
token that is not a person name is looked up via `get_images_by_tag`; only
membership in the accumulated set matters downstream, so the set is modelled
as the concatenated list. -/
def tagResults (db : Db) (query : PyStr) : List PyStr :=
  ((queryTokens query).filter (fun t => t ∉ queryPersons query)).flatMap
    (get_images_by_tag db)

/-- The accumulated person matches (photo_manager.py:253-256). -/
def personResults (db : Db) (query : PyStr) : List PyStr :=
  (queryPersons query).flatMap (get_images_by_person db)

/-- The sentence-embedding collaborator (`self.nlp_model` plus the cosine
computation of photo_manager.py:265-271), modelled opaquely: given the
candidate caption texts (`photo[4]` of each photo) and the query, it yields
one cosine similarity per candidate, or raises. -/
abbrev NlpSims := List PyStr → PyStr → Except Unit (List ℚ)

/-- The body of `search_photos` inside its `try` (photo_manager.py:230-279);
an `Except.error` is an exception escaping to the handler. -/
def searchBody (db : Db) (nlp : Option NlpSims) (photos : List Photo)
    (query : PyStr) : Except Unit (List Photo) :=
  if query = [] then .ok photos
  else if tagResults db query ≠ [] ∨ personResults db query ≠ [] then
    .ok (photos.filter (fun p =>
      p.file_path ∈ tagResults db query ++ personResults db query))
  else
    match nlp with
    | none => .ok photos
    | some f =>
      match f (photos.map (fun p => p.tags)) query with
      | .ok sims => .ok (semanticSelect photos sims)
      | .error e => .error e

/-- `PhotoManager.search_photos` (photo_manager.py:228-283): the `except`
handler catches any exception and returns the empty list
(photo_manager.py:281-283). -/
def search_photos (db : Db) (nlp : Option NlpSims) (photos : List Photo)
    (query : PyStr) : List Photo :=
  match searchBody db nlp photos query with
  | .ok r => r
  | .error _ => []

/-! ## `photo_manager.py`: the metadata/caption enrichment pipeline -/

/-- Exceptions distinguished inside the per-photo body of
`_process_metadata`. -/
inductive PyErr where
  | typeError
  | ioError
deriving DecidableEq, Repr

/-- The opaque per-photo collaborators of `_process_metadata`: EXIF location
extraction (photo_manager.py:139-143, which can raise), and
`CaptionGenerator.generate_tags` followed by the join
(photo_manager.py:145-146). -/
structure MetaEnv where
  exifLocation : PyStr → Except Unit PyStr
  tagsOf : PyStr → PyStr

/-- The call `self.db.add_image(file_path, date.isoformat(), size,
str(location), tags_str)` (photo_manager.py:148).  `ImageDatabase.add_image`
(database.py:48) declares six required parameters — `file_path, date, size,
location, tags, detailed_caption` — with no defaults, so this five-argument
call raises `TypeError: add_image() missing 1 required positional argument:
'detailed_caption'` before any write happens. -/
def addImageCallFiveArgs (_db : Db) (_path : PyStr) (_date : PyStr) (_size : Nat)
    (_location : PyStr) (_tags : PyStr) : Except PyErr Db :=
  .error .typeError

/-- The per-photo body of `_process_metadata` (photo_manager.py:138-153):
read EXIF (may raise), generate tags, then attempt the five-argument
`add_image` write. -/
def processMetadataItem (env : MetaEnv) (db : Db) (p : Photo) : Except PyErr Db :=
  match env.exifLocation p.file_path with
  | .error _ => .error .ioError
  | .ok location =>
    addImageCallFiveArgs db p.file_path (isoformat p.date) p.size location
      (env.tagsOf p.file_path)

/-- `PhotoManager._process_metadata` (photo_manager.py:133-164): per-photo
failures are caught and iteration continues with the next photo. -/
def process_metadata (env : MetaEnv) (photos : List Photo) (db : Db) : Db :=
  photos.foldl (fun db p =>
    match processMetadataItem env db p with
    | .ok db' => db'
    | .error _ => db) db

/-! ## `caption_generator.py` and the detail-view caption worker -/

/-- The state of a `CaptionGenerator`: whether the Florence-2 model loaded
(`florence_model`/`florence_processor` are non-`None`), whether
`Image.open` succeeds on a path, and the raw Florence output for a path. -/
structure CapGen where
  florenceLoaded : Bool
  openOk : PyStr → Bool
  runModel : PyStr → PyStr

/-- Modelled from the spec: `CaptionGenerator.is_initialized`, which the
caption worker calls (ui_manager.py:578), is absent from
`caption_generator.py`; per spec §6/§7 model-unavailability "is detected once
at startup/use-site" — the predicate reports whether the caption model
loaded. -/
def is_initialized (g : CapGen) : Bool := g.florenceLoaded

/-- The post-processing of a raw Florence caption
(caption_generator.py:86-89): newlines become spaces, the result is stripped,
a trailing period is ensured, and the text is lower-cased into the
`"In the image, ..."` template. -/
def postprocessCaption (c : PyStr) : PyStr :=
  let c1 := pyStrip (c.map (fun ch => if ch = '\n' then ' ' else ch))
  let c2 := if pyEndsWith c1 ['.'] then c1 else c1 ++ ['.']
  "In the image, ".data ++ pyLower c2

/-- `CaptionGenerator.generate_image_caption` (caption_generator.py:67-95):
a sentinel if the model is not loaded, an error string if reading the image
raises, otherwise the post-processed model output.  Every branch returns a
non-empty string. -/
def generate_image_caption (g : CapGen) (path : PyStr) : PyStr :=
  if g.florenceLoaded = false then
    "Caption unavailable: Florence-2 model not loaded.".data
  else if g.openOk path = false then
    "Failed to generate caption: ".data
  else
    postprocessCaption (g.runModel path)

/-- The truthiness test `metadata and metadata.get('detailed_caption')`
(ui_manager.py:574): a stored caption counts only if the row exists and the
column is neither NULL nor the empty string. -/
def cachedCaption (db : Db) (path : PyStr) : Option PyStr :=
  match get_image_metadata db path with
  | some m =>
    match m.detailed_caption with
    | some c => if c = [] then none else some c
    | none => none
  | none => none

/-- One item of `UIManager._process_captions` (ui_manager.py:570-602):
returns the updated store, the number of caption-model invocations, and the
text put on the caption label.  A cached caption is served with no model
call; with the model unavailable a sentinel is shown; otherwise the caption
is generated, shown, and persisted via the six-argument `add_image`
(ui_manager.py:594-601) with defaults when no row existed
(ui_manager.py:585-592). -/
def process_caption_item (g : CapGen) (db : Db) (path : PyStr) :
    Db × Nat × PyStr :=
  match cachedCaption db path with
  | some c => (db, 0, c)
  | none =>
    if is_initialized g = false then
      (db, 0, "Caption unavailable: Florence-2 model not loaded".data)
    else
      let caption := generate_image_caption g path
      let m := (get_image_metadata db path).getD
        ⟨path, [], 0, [], [], none⟩
      (add_image db ⟨path, m.date, m.size, m.location, m.tags, some caption⟩,
        1, caption)

/-! ## Order-theoretic facts about the sort comparisons -/

lemma lexLe_refl : ∀ s : PyStr, lexLe s s = true := by
  intro s
  induction s with
  | nil => rfl
  | cons a t ih => simp [lexLe, lt_irrefl, ih]

lemma lexLe_total : ∀ a b : PyStr, lexLe a b = true ∨ lexLe b a = true := by
  intro a
  induction a with
  | nil => intro b; left; rfl
  | cons x xs ih =>
    intro b
    cases b with
    | nil => right; rfl
    | cons y ys =>
      rcases lt_trichotomy x y with h | h | h
      · left; simp [lexLe, h]
      · subst h
        rcases ih ys with h' | h' <;> [left; right] <;> simp [lexLe, lt_irrefl, h']
      · right; simp [lexLe, h]

lemma lexLe_antisymm : ∀ a b : PyStr,
    lexLe a b = true → lexLe b a = true → a = b := by
  intro a
  induction a with
  | nil =>
    intro b _ h₂
    cases b with
    | nil => rfl
    | cons y ys => simp [lexLe] at h₂
  | cons x xs ih =>
    intro b h₁ h₂
    cases b with
    | nil => simp [lexLe] at h₁
    | cons y ys =>
      by_cases hxy : x < y
      · simp [lexLe, hxy, asymm hxy] at h₂
      · by_cases hyx : y < x
        · simp [lexLe, hxy, hyx] at h₁
        · have hx : x = y := le_antisymm (not_lt.mp hyx) (not_lt.mp hxy)
          subst hx
          simp only [lexLe, lt_irrefl, if_false] at h₁ h₂
          rw [ih ys h₁ h₂]

lemma lexLe_trans : ∀ a b c : PyStr,
    lexLe a b = true → lexLe b c = true → lexLe a c = true := by
  intro a
  induction a with
  | nil => intro b c _ _; rfl
  | cons x xs ih =>
    intro b c h₁ h₂
    cases b with
    | nil => simp [lexLe] at h₁
    | cons y ys =>
      cases c with
      | nil => simp [lexLe] at h₂
      | cons z zs =>
        by_cases hxy : x < y
        · by_cases hyz : y < z
          · simp [lexLe, lt_trans hxy hyz]
          · by_cases hzy : z < y
            · simp [lexLe, hyz, hzy] at h₂
            · have : y = z := le_antisymm (not_lt.mp hzy) (not_lt.mp hyz)
              subst this
              simp [lexLe, hxy]
        · by_cases hyx : y < x
          · simp [lexLe, hxy, hyx] at h₁
          · have hx : x = y := le_antisymm (not_lt.mp hyx) (not_lt.mp hxy)
            subst hx
            simp only [lexLe, lt_irrefl, if_false] at h₁
            by_cases hyz : x < z
            · simp [lexLe, hyz]
            · by_cases hzy : z < x
              · simp [lexLe, hyz, hzy] at h₂
              · have : x = z := le_antisymm (not_lt.mp hzy) (not_lt.mp hyz)
                subst this
                simp only [lexLe, lt_irrefl, if_false] at h₂ ⊢
                exact ih ys zs h₁ h₂

instance : IsTotal Photo nameLe := ⟨fun a b => lexLe_total (nameKey a) (nameKey b)⟩

instance : IsTrans Photo nameLe :=
  ⟨fun a b c h₁ h₂ => lexLe_trans (nameKey a) (nameKey b) (nameKey c) h₁ h₂⟩

/-- Two sorted permutations of each other are equal once the sort keys are
pairwise distinct (sortedness with respect to `nameLe`, keys under
`nameKey`). -/
lemma eq_of_perm_of_sorted_nameKey : ∀ l₁ l₂ : List Photo,
    l₁.Perm l₂ → List.Sorted nameLe l₁ → List.Sorted nameLe l₂ →
    (l₁.map nameKey).Nodup → l₁ = l₂ := by
  intro l₁
  induction l₁ with
  | nil => intro l₂ hp _ _ _; exact hp.nil_eq
  | cons a t ih =>
    intro l₂ hp hs₁ hs₂ hnd
    cases l₂ with
    | nil => exact absurd hp.symm.nil_eq (by simp)
    | cons b t₂ =>
      have hb₁ : b ∈ a :: t := hp.symm.subset (List.mem_cons_self b t₂)
      have ha₂ : a ∈ b :: t₂ := hp.subset (List.mem_cons_self a t)
      have hk : nameKey a = nameKey b := by
        have h₁ : nameLe a b := by
          rcases List.mem_cons.mp hb₁ with h | h
          · rw [h]; exact lexLe_refl _
          · exact List.rel_of_sorted_cons hs₁ b h
        have h₂ : nameLe b a := by
          rcases List.mem_cons.mp ha₂ with h | h
          · rw [h]; exact lexLe_refl _
          · exact List.rel_of_sorted_cons hs₂ a h
        exact lexLe_antisymm _ _ h₁ h₂
      have hab : a = b :=
        List.inj_on_of_nodup_map hnd (List.mem_cons_self a t) hb₁ hk
      subst hab
      have ht : t = t₂ :=
        ih t₂ hp.cons_inv hs₁.of_cons hs₂.of_cons
          (by simpa using hnd.of_cons)
      rw [ht]

instance (sims : List ℚ) : IsTotal Nat (argsortLe sims) := by
  constructor
  intro i j
  rcases lt_trichotomy (simAt sims i) (simAt sims j) with h | h | h
  · exact Or.inl (Or.inl h)
  · rcases Nat.le_total i j with h' | h'
    · exact Or.inl (Or.inr ⟨h, h'⟩)
    · exact Or.inr (Or.inr ⟨h.symm, h'⟩)
  · exact Or.inr (Or.inl h)

instance (sims : List ℚ) : IsTrans Nat (argsortLe sims) := by
  constructor
  intro i j k hij hjk
  rcases hij with h₁ | ⟨e₁, l₁⟩
  · rcases hjk with h₂ | ⟨e₂, _⟩
    · exact Or.inl (lt_trans h₁ h₂)
    · exact Or.inl (e₂ ▸ h₁)
  · rcases hjk with h₂ | ⟨e₂, l₂⟩
    · exact Or.inl (e₁ ▸ h₂)
    · exact Or.inr ⟨e₁.trans e₂, le_trans l₁ l₂⟩

lemma argsortAsc_sorted (sims : List ℚ) :
    List.Sorted (argsortLe sims) (argsortAsc sims) :=
  List.sorted_insertionSort (argsortLe sims) (List.range sims.length)

lemma argsortAsc_perm (sims : List ℚ) :
    (argsortAsc sims).Perm (List.range sims.length) :=
  List.perm_insertionSort (argsortLe sims) (List.range sims.length)

lemma argsortAsc_nodup (sims : List ℚ) : (argsortAsc sims).Nodup :=
  ((argsortAsc_perm sims).nodup_iff).mpr (List.nodup_range _)

lemma argsortAsc_length (sims : List ℚ) :
    (argsortAsc sims).length = sims.length := by
  simpa using (argsortAsc_perm sims).length_eq

/-- `semanticSelIdx` is a sublist of the reversed argsort. -/
lemma semanticSelIdx_sublist (nPhotos : Nat) (sims : List ℚ) :
    (semanticSelIdx nPhotos sims).Sublist (argsortAsc sims).reverse :=
  (List.filter_sublist _).trans (List.take_sublist _ _)

/-! ## Helper facts about the store operations -/

/-- After an INSERT OR REPLACE, the lookup for the written path returns the
new row. -/
lemma get_image_metadata_add_image (db : Db) (r : ImageRecord) :
    get_image_metadata (add_image db r) r.file_path = some r := by
  unfold get_image_metadata add_image
  simp only
  induction db.images with
  | nil => simp
  | cons q qs ih =>
    by_cases h : q.file_path = r.file_path
    · simpa [h] using ih
    · simpa [List.filter_cons, h, List.find?] using ih

/-- Every branch of `generate_image_caption` yields a non-empty string. -/
lemma generate_image_caption_ne_nil (g : CapGen) (path : PyStr) :
    generate_image_caption g path ≠ [] := by
  unfold generate_image_caption
  split
  · decide
  · split
    · decide
    · unfold postprocessCaption
      intro h
      rcases List.append_eq_nil.mp h with ⟨h1, _⟩
      exact absurd h1 (by decide)

/-- An empty query produces no tag matches. -/
lemma tagResults_nil (db : Db) : tagResults db [] = [] := rfl

/-- An empty query produces no person matches. -/
lemma personResults_nil (db : Db) : personResults db [] = [] := rfl

/-! ## Concrete fixtures used by counterexamples and witnesses -/

/-- The empty store. -/
def dbEmpty : Db := { images := [], faces := [] }

/-- Photo A of the spec's query-resolution scenario: tags `"dog, park"`. -/
def phA : Photo := ⟨"a.jpg".data, 10, 1024, "Unknown".data, "dog, park".data⟩

/-- Photo B of the spec's query-resolution scenario: tags `"cat, house"`. -/
def phB : Photo := ⟨"b.jpg".data, 20, 2048, "Unknown".data, "cat, house".data⟩

/-- The store of the query-resolution scenario: rows for A and B, and a
`FaceRecord` named `"Tina"` attached only to A. -/
def dbScenario : Db :=
  { images := [⟨"a.jpg".data, "d1".data, 1024, "Unknown".data, "dog, park".data, none⟩,
               ⟨"b.jpg".data, "d2".data, 2048, "Unknown".data, "cat, house".data, none⟩],
    faces := [⟨"a.jpg".data, [0], some "Tina".data, 100, 200, 200, 100⟩] }

/-- An embedding collaborator that reports the tied similarities
`[0.5, 0.5]`. -/
def nlpTied : NlpSims := fun _ _ => .ok [mkRat 1 2, mkRat 1 2]

/-- An embedding collaborator whose encode call raises. -/
def nlpRaises : NlpSims := fun _ _ => .error ()

/-- An embedding collaborator reporting similarities `[0.5, 0.2]`. -/
def nlpSplit : NlpSims := fun _ _ => .ok [mkRat 1 2, mkRat 1 5]

/-- A scanned file whose fresh stat timestamp is `200`. -/
def entryFresh : FileEntry := ⟨"a.jpg".data, "a.jpg".data, 200, 5, true⟩

/-- A stored record for the same path whose stored `date` string renders the
older timestamp `100`, with location `"Paris"` and tags `"dog"`. -/
def recordStale : ImageRecord :=
  ⟨"a.jpg".data, "100".data, 5, "Paris".data, "dog".data, none⟩

/-- Photos whose paths differ only by case (`"A"` vs `"a"`), with different
sizes — the case-folded name keys collide. -/
def phUpper : Photo := ⟨"A".data, 0, 1, [], []⟩

/-- See `phUpper`. -/
def phLowerCase : Photo := ⟨"a".data, 0, 2, [], []⟩

/-- A manager state holding `phUpper` then `phLowerCase`. -/
def stCollide : MState := ⟨[phUpper, phLowerCase], "Date".data⟩

/-- A caption generator with the Florence model loaded, reading every image
successfully and captioning it `"A cat"`. -/
def capGenOk : CapGen := ⟨true, fun _ => true, fun _ => "A cat".data⟩

/-! ## Claim C10 -/

/-- C10: for every folder load that fails — root missing, not a directory,
unreadable, or no matching image files — the in-memory resolved photo
collection is left exactly as it was before the call (the error is raised
before the collection field is reassigned), so a failed reload never clears
or alters the previously loaded collection. -/
theorem load_photos_failure_preserves_state :
    ∀ (fs : FsFolder) (db : Db) (st : MState) (e : LoadError),
      (load_photos fs db st).2 = .error e → (load_photos fs db st).1 = st := by
  intro fs db st e h
  by_cases h1 : fs.pathExists = false
  · simp [load_photos, h1]
  · by_cases h2 : fs.isDir = false
    · simp [load_photos, h1, h2]
    · by_cases h3 : fs.readable = false
      · simp [load_photos, h1, h2, h3]
      · by_cases h4 : scanPhotos fs.files (get_all_metadata db) = []
        · simp [load_photos, h1, h2, h3, h4]
        · exfalso
          revert h
          simp [load_photos, h1, h2, h3, h4]

/-- Witness for C10 at a missing folder holding a previously loaded
collection. -/
theorem load_photos_failure_preserves_state_witness :
    (load_photos ⟨false, true, true, []⟩ dbEmpty ⟨[phA], "Date".data⟩).1 =
      ⟨[phA], "Date".data⟩ :=
  load_photos_failure_preserves_state ⟨false, true, true, []⟩ dbEmpty
    ⟨[phA], "Date".data⟩ .folderMissing rfl

/-! ## Claim C6 -/

/-- A folder that contains only non-image files. -/
def fsOnlyText : FsFolder :=
  ⟨true, true, true, [⟨"notes.txt".data, "notes.txt".data, 0, 7, true⟩]⟩

/-- C6: for every folder whose scan yields no matching image files (for
example, a folder containing only non-image files), load raises
`EmptyFolderError` (the `ValueError("No valid images found in folder")` of
photo_manager.py:100) as a reportable condition rather than returning a
silent empty list, and it leaves the resolved collection empty (more
precisely: exactly as it was, hence empty on a freshly initialised
manager). -/
theorem load_photos_only_non_images_raises :
    ∀ (fs : FsFolder) (db : Db) (st : MState),
      fs.pathExists = true → fs.isDir = true → fs.readable = true →
      (∀ e ∈ fs.files, isImageFile e.fileName = false) →
      load_photos fs db st = (st, .error .emptyFolder) ∧
      (load_photos fs db st).1.photos = st.photos := by
  intro fs db st h1 h2 h3 h4
  have hscan : scanPhotos fs.files (get_all_metadata db) = [] := by
    unfold scanPhotos
    rw [List.filterMap_eq_nil_iff]
    intro e he
    simp [h4 e he]
  constructor
  · simp [load_photos, h1, h2, h3, hscan]
  · simp [load_photos, h1, h2, h3, hscan]

/-- Witness for C6: a fresh manager state, a folder with one `.txt` file. -/
theorem load_photos_only_non_images_raises_witness :
    load_photos fsOnlyText dbEmpty ⟨[], "Date".data⟩ =
      (⟨[], "Date".data⟩, .error .emptyFolder) :=
  (load_photos_only_non_images_raises fsOnlyText dbEmpty ⟨[], "Date".data⟩
    rfl rfl rfl (by decide)).1

/-! ## Claim C2 -/

/-- The per-photo body of the metadata pipeline never succeeds: either the
EXIF step raises, or the five-argument `add_image` call raises `TypeError`
(`add_image` requires six arguments, database.py:48). -/
lemma processMetadataItem_not_ok (env : MetaEnv) (db : Db) (p : Photo) :
    ∀ d, processMetadataItem env db p ≠ .ok d := by
  intro d
  unfold processMetadataItem addImageCallFiveArgs
  cases h : env.exifLocation p.file_path <;> simp

/-- C2 (code bug): the claim says each successfully processed photo's
combined record is written back so that a subsequent get returns the
enriched record; in the code the write
`self.db.add_image(file_path, date.isoformat(), size, str(location),
tags_str)` (photo_manager.py:148) passes five arguments to the six-parameter
`ImageDatabase.add_image` (database.py:48), so every per-photo iteration
raises `TypeError`, is caught (photo_manager.py:155-157), and the store is
never updated: the pipeline is the identity on the store, and every
subsequent `get_image_metadata` is unchanged. -/
theorem process_metadata_never_writes :
    ∀ (env : MetaEnv) (photos : List Photo) (db : Db),
      process_metadata env photos db = db ∧
      ∀ p : PyStr,
        get_image_metadata (process_metadata env photos db) p =
          get_image_metadata db p := by
  intro env photos db
  have main : ∀ (l : List Photo) (d : Db), process_metadata env l d = d := by
    intro l
    induction l with
    | nil => intro d; rfl
    | cons p ps ih =>
      intro d
      unfold process_metadata at ih ⊢
      rw [List.foldl_cons]
      have hstep :
          (match processMetadataItem env d p with
            | .ok db' => db'
            | .error _ => d) = d := by
        cases h : processMetadataItem env d p with
        | ok d' => exact absurd h (processMetadataItem_not_ok env d p d')
        | error e => rfl
      rw [hstep]
      exact ih d
  exact ⟨main photos db, fun p => by rw [main photos db]⟩

/-! ## Claim C9 -/

/-- C9: for every path, encoding and box, `add_face(path, enc, name=None,
box)` followed by `rename_face(path, enc, "Tina")`
(`ImageDatabase.update_face_name`) makes `get_faces(path)` return that face
with name `"Tina"` — the rename matches the record by file path plus exact
encoding bytes.  The added row is the last face returned for the path; in
particular on a store with no prior face for the path it is the only one. -/
theorem add_face_then_rename :
    ∀ (db : Db) (path : PyStr) (enc : List Int) (t r b l : Int),
      (get_faces
          (update_face_name (add_face db path enc none t r b l) path enc
            ("Tina".data)) path).getLast? =
        some ⟨path, enc, some ("Tina".data), t, r, b, l⟩ ∧
      (get_faces db path = [] →
        get_faces
            (update_face_name (add_face db path enc none t r b l) path enc
              ("Tina".data)) path =
          [⟨path, enc, some ("Tina".data), t, r, b, l⟩]) := by
  intro db path enc t r b l
  have hrow :
      get_faces
          (update_face_name (add_face db path enc none t r b l) path enc
            ("Tina".data)) path =
        (db.faces.map (fun f =>
            if f.file_path = path ∧ f.encoding = enc then
              { f with name := some ("Tina".data) }
            else f)).filter (fun f => f.file_path = path) ++
          [⟨path, enc, some ("Tina".data), t, r, b, l⟩] := by
    unfold get_faces update_face_name add_face
    simp
  constructor
  · rw [hrow]
    rw [List.getLast?_append]
    rfl
  · intro hempty
    rw [hrow]
    have hfiltered :
        (db.faces.map (fun f =>
            if f.file_path = path ∧ f.encoding = enc then
              { f with name := some ("Tina".data) }
            else f)).filter (fun f => f.file_path = path) = [] := by
      rw [List.filter_eq_nil_iff]
      intro x hx
      rcases List.mem_map.mp hx with ⟨f, hf, hfx⟩
      have hfpath : x.file_path = f.file_path := by
        by_cases hcond : f.file_path = path ∧ f.encoding = enc
        · rw [← hfx]; simp [hcond]
        · rw [← hfx]; simp [hcond]
      have hnot : ¬ f.file_path = path := by
        intro hcontra
        have : f ∈ db.faces.filter (fun f => f.file_path = path) :=
          List.mem_filter.mpr ⟨hf, by simp [hcontra]⟩
        rw [show db.faces.filter (fun f => f.file_path = path) =
              get_faces db path from rfl, hempty] at this
        exact absurd this (List.not_mem_nil f)
      simp [hfpath, hnot]
    rw [hfiltered]
    rfl

/-- Witness for C9: the rename sequence on the empty store. -/
theorem add_face_then_rename_witness :
    get_faces
        (update_face_name (add_face dbEmpty ("p.jpg".data) [1, 2] none 1 2 3 4)
          ("p.jpg".data) [1, 2] ("Tina".data)) ("p.jpg".data) =
      [⟨"p.jpg".data, [1, 2], some ("Tina".data), 1, 2, 3, 4⟩] :=
  (add_face_then_rename dbEmpty ("p.jpg".data) [1, 2] 1 2 3 4).2 rfl

/-! ## Claim C1 -/

/-- C1 (amended): the reconciliation of `load_photos` takes the reuse branch
— stored location and tags verbatim — if and only if a stored record exists
for the path; the stored and fresh timestamps are never compared.  Every
scanned image file with a successful stat is immediately present in the
resolved collection, and a path with no stored record gets location
`"Unknown"` and empty tags.  (The reconciliation loop itself never invokes
the caption model for any photo: `scanPhotos` takes no caption provider.) -/
theorem scan_reuse_iff_record_exists :
    ∀ (files : List FileEntry) (images : List ImageRecord),
      (∀ e ∈ files, isImageFile e.fileName = true → e.statOk = true →
        resolveEntry (lookupMeta images e.path) e.path e.mtime e.size ∈
          scanPhotos files images) ∧
      (∀ p ∈ scanPhotos files images,
        (∃ m, lookupMeta images p.file_path = some m ∧
          p.location = m.location ∧ p.tags = m.tags) ∨
        (lookupMeta images p.file_path = none ∧
          p.location = "Unknown".data ∧ p.tags = [])) := by
  intro files images
  constructor
  · intro e he h1 h2
    unfold scanPhotos
    exact List.mem_filterMap.mpr ⟨e, he, by simp [h1, h2]⟩
  · intro p hp
    rcases List.mem_filterMap.mp hp with ⟨e, _, heq⟩
    by_cases hcond : isImageFile e.fileName = true ∧ e.statOk = true
    · rw [if_pos hcond] at heq
      have hres : resolveEntry (lookupMeta images e.path) e.path e.mtime e.size = p :=
        Option.some_injective _ heq
      cases hm : lookupMeta images e.path with
      | some m =>
        rw [hm] at hres
        subst hres
        left
        exact ⟨m, by simp [resolveEntry, hm], by simp [resolveEntry],
          by simp [resolveEntry]⟩
      | none =>
        rw [hm] at hres
        subst hres
        right
        exact ⟨by simp [resolveEntry, hm], by simp [resolveEntry],
          by simp [resolveEntry]⟩
    · rw [if_neg hcond] at heq
      exact absurd heq (by simp)

/-- Witness for C1's amended theorem: the fresh-stat entry for `"a.jpg"` is
immediately present in the scan of `[entryFresh]` against the store
`[recordStale]`. -/
theorem scan_reuse_iff_record_exists_witness :
    resolveEntry (lookupMeta [recordStale] ("a.jpg".data)) ("a.jpg".data) 200 5 ∈
      scanPhotos [entryFresh] [recordStale] :=
  (scan_reuse_iff_record_exists [entryFresh] [recordStale]).1 entryFresh
    (List.mem_singleton.mpr rfl) (by decide) rfl

/-- The property asserted by claim C1, as stated, at a given input: the
reuse branch (stored location/tags verbatim) is taken exactly when a stored
record exists AND its stored timestamp equals the freshly-stat'd one; with
no record or differing timestamps the summary defaults to
(`"Unknown"`, no tags). -/
def claimFreshnessGatedReuse (files : List FileEntry)
    (images : List ImageRecord) : Bool :=
  (scanPhotos files images).all (fun p =>
    match lookupMeta images p.file_path with
    | some m =>
      if m.date = isoformat p.date then
        decide (p.location = m.location ∧ p.tags = m.tags)
      else
        decide (p.location = "Unknown".data ∧ p.tags = [])
    | none => decide (p.location = "Unknown".data ∧ p.tags = []))

/-- Counterexample to C1 as stated: for the path `"a.jpg"` a stored record
exists whose stored timestamp (`"100"`) differs from the freshly-stat'd one
(`200`), yet the resolved summary carries the stored location `"Paris"` and
tags `"dog"` instead of the claimed defaults — the code never compares
timestamps. -/
theorem scan_freshness_counterexample :
    claimFreshnessGatedReuse [entryFresh] [recordStale] = false ∧
    scanPhotos [entryFresh] [recordStale] =
      [⟨"a.jpg".data, 200, 5, "Paris".data, "dog".data⟩] ∧
    recordStale.date ≠ isoformat 200 := by
  refine ⟨by decide, by decide, by decide⟩

/-! ## Claim C7 -/

/-- C7 (amended): an empty query returns the full current collection
unmodified, and so does the semantic path when the embedding model is
unavailable (`nlp_model is None`, photo_manager.py:275-276); but an internal
failure of the search/index step is caught by the handler at
photo_manager.py:281-283 and returns the **empty** list, not the full
collection. -/
theorem search_photos_fail_open_and_closed :
    (∀ (db : Db) (nlp : Option NlpSims) (photos : List Photo),
      search_photos db nlp photos [] = photos) ∧
    (∀ (db : Db) (photos : List Photo) (query : PyStr),
      query ≠ [] → tagResults db query = [] → personResults db query = [] →
      search_photos db none photos query = photos) ∧
    (∀ (db : Db) (f : NlpSims) (photos : List Photo) (query : PyStr),
      query ≠ [] → tagResults db query = [] → personResults db query = [] →
      f (photos.map (fun p => p.tags)) query = .error () →
      search_photos db (some f) photos query = []) := by
  refine ⟨?_, ?_, ?_⟩
  · intro db nlp photos
    simp [search_photos, searchBody]
  · intro db photos query hq ht hp
    simp [search_photos, searchBody, hq, ht, hp]
  · intro db f photos query hq ht hp hf
    simp [search_photos, searchBody, hq, ht, hp, hf]

/-- Witness for C7's theorem: the embedding-unavailable fallback on a
one-photo collection returns the collection. -/
theorem search_photos_fail_open_and_closed_witness :
    search_photos dbEmpty none [phA] ("sunset".data) = [phA] :=
  search_photos_fail_open_and_closed.2.1 dbEmpty [phA] ("sunset".data)
    (by decide) rfl rfl

/-- Counterexample to C7 as stated: when the embedding call raises, the
search/index step fails internally and `search_photos` returns the empty
list, not the full (non-empty) collection. -/
theorem search_photos_internal_failure_counterexample :
    search_photos dbEmpty (some nlpRaises) [phA] ("sunset".data) = [] ∧
    [phA] ≠ ([] : List Photo) := by
  refine ⟨by decide, by decide⟩

/-! ## Claim C3 -/

/-- C3: whenever at least one tag term or person term matches,
`search_photos` returns exactly the union of tag-matched and person-matched
photos (an OR of per-term matches), filtered so the collection's current
order is preserved; in particular with tags `"dog, park"` on photo A and
`"cat, house"` on photo B, `resolve("dog")` returns exactly `[A]`, and with
a FaceRecord named `"Tina"` attached only to photo A,
`resolve("with Tina")` returns exactly `[A]`. -/
theorem search_union_of_tag_and_person_matches :
    (∀ (db : Db) (nlp : Option NlpSims) (photos : List Photo) (query : PyStr),
      tagResults db query ≠ [] ∨ personResults db query ≠ [] →
      search_photos db nlp photos query =
        photos.filter (fun p =>
          p.file_path ∈ tagResults db query ++ personResults db query)) ∧
    search_photos dbScenario none [phA, phB] ("dog".data) = [phA] ∧
    search_photos dbScenario none [phA, phB] ("with Tina".data) = [phA] := by
  refine ⟨?_, by decide, by decide⟩
  intro db nlp photos query h
  by_cases hq : query = []
  · subst hq
    rw [tagResults_nil, personResults_nil] at h
    simp at h
  · simp [search_photos, searchBody, hq, h]

/-- Witness for C3's theorem: in the two-photo scenario the query `"dog"`
has a tag match, and the result is the order-preserving filter by the
match-set. -/
theorem search_union_of_tag_and_person_matches_witness :
    search_photos dbScenario none [phA, phB] ("dog".data) =
      List.filter (fun p =>
        p.file_path ∈ tagResults dbScenario ("dog".data) ++
          personResults dbScenario ("dog".data)) [phA, phB] :=
  search_union_of_tag_and_person_matches.1 dbScenario none [phA, phB]
    ("dog".data) (by decide)

/-! ## Claim C4 -/

/-- A cached caption is served verbatim: no model call, no store write. -/
lemma process_caption_item_cached (g : CapGen) (db : Db) (path : PyStr)
    (c : PyStr) (h : cachedCaption db path = some c) :
    process_caption_item g db path = (db, 0, c) := by
  simp [process_caption_item, h]

/-- C4: for every photo opened in the detail view, the caption worker serves
a stored caption directly with no model call when one exists; otherwise
(with the caption model initialised) it generates a caption once, shows it,
and persists it to the store, so that a repeated view of the same unchanged
photo serves the stored caption and never re-invokes the model. -/
theorem caption_worker_produce_or_fetch_cached :
    (∀ (g : CapGen) (db : Db) (path : PyStr) (c : PyStr),
      cachedCaption db path = some c →
      process_caption_item g db path = (db, 0, c)) ∧
    (∀ (g : CapGen) (db : Db) (path : PyStr),
      cachedCaption db path = none → is_initialized g = true →
      (process_caption_item g db path).2.1 = 1 ∧
      (process_caption_item g db path).2.2 = generate_image_caption g path ∧
      cachedCaption (process_caption_item g db path).1 path =
        some (generate_image_caption g path) ∧
      process_caption_item g (process_caption_item g db path).1 path =
        ((process_caption_item g db path).1, 0,
          generate_image_caption g path)) := by
  constructor
  · intro g db path c h
    exact process_caption_item_cached g db path c h
  · intro g db path h hi
    have hne := generate_image_caption_ne_nil g path
    have hfirst :
        process_caption_item g db path =
          (add_image db
            ⟨path, ((get_image_metadata db path).getD
                ⟨path, [], 0, [], [], none⟩).date,
              ((get_image_metadata db path).getD ⟨path, [], 0, [], [], none⟩).size,
              ((get_image_metadata db path).getD
                ⟨path, [], 0, [], [], none⟩).location,
              ((get_image_metadata db path).getD ⟨path, [], 0, [], [], none⟩).tags,
              some (generate_image_caption g path)⟩,
            1, generate_image_caption g path) := by
      simp [process_caption_item, h, hi]
    have hcached :
        cachedCaption (process_caption_item g db path).1 path =
          some (generate_image_caption g path) := by
      rw [hfirst]
      unfold cachedCaption
      rw [show (path : PyStr) =
            (ImageRecord.mk path
              ((get_image_metadata db path).getD ⟨path, [], 0, [], [], none⟩).date
              ((get_image_metadata db path).getD ⟨path, [], 0, [], [], none⟩).size
              ((get_image_metadata db path).getD
                ⟨path, [], 0, [], [], none⟩).location
              ((get_image_metadata db path).getD ⟨path, [], 0, [], [], none⟩).tags
              (some (generate_image_caption g path))).file_path from rfl,
        get_image_metadata_add_image]
      simp [hne]
    refine ⟨by rw [hfirst], by rw [hfirst], hcached, ?_⟩
    exact process_caption_item_cached g _ path _ hcached

/-- Witness for C4: with no cached caption and the model loaded, the worker
generates once and a second view serves the stored caption with no call. -/
theorem caption_worker_produce_or_fetch_cached_witness :
    (process_caption_item capGenOk dbEmpty ("a.jpg".data)).2.1 = 1 ∧
    (process_caption_item capGenOk dbEmpty ("a.jpg".data)).2.2 =
      generate_image_caption capGenOk ("a.jpg".data) ∧
    cachedCaption (process_caption_item capGenOk dbEmpty ("a.jpg".data)).1
        ("a.jpg".data) =
      some (generate_image_caption capGenOk ("a.jpg".data)) ∧
    process_caption_item capGenOk
        (process_caption_item capGenOk dbEmpty ("a.jpg".data)).1 ("a.jpg".data) =
      ((process_caption_item capGenOk dbEmpty ("a.jpg".data)).1, 0,
        generate_image_caption capGenOk ("a.jpg".data)) :=
  caption_worker_produce_or_fetch_cached.2 capGenOk dbEmpty ("a.jpg".data)
    rfl rfl

/-! ## Claim C8 -/

/-- Counterexample to C8 as stated: on the collection `[⟨"A", size 1⟩,
⟨"a", size 2⟩]` — whose case-folded path keys collide — `set_sort(BY_SIZE)`
then `set_sort(BY_NAME)` yields `[⟨"a"⟩, ⟨"A"⟩]` while `set_sort(BY_NAME)`
alone yields `[⟨"A"⟩, ⟨"a"⟩]`: with equal case-insensitive name keys the
stable sort preserves whatever order the previous sort left, so the result
is history-dependent. -/
theorem sort_name_history_counterexample :
    (set_sort ("Name".data) (set_sort ("Size".data) stCollide)).photos ≠
      (set_sort ("Name".data) stCollide).photos ∧
    (set_sort ("Name".data) (set_sort ("Size".data) stCollide)).photos =
      [phLowerCase, phUpper] ∧
    (set_sort ("Name".data) stCollide).photos = [phUpper, phLowerCase] := by
  refine ⟨by decide, by decide, by decide⟩

/-- C8 (amended): for every input collection whose case-folded paths are
pairwise distinct, `set_sort(BY_SIZE)` followed by `set_sort(BY_NAME)`
yields the same final order as `set_sort(BY_NAME)` alone — with injective
name keys the sort result is not history-dependent. -/
theorem sort_name_independent_of_size_sort :
    ∀ st : MState, (st.photos.map nameKey).Nodup →
      (set_sort ("Name".data) (set_sort ("Size".data) st)).photos =
        (set_sort ("Name".data) st).photos := by
  intro st hnd
  show pySortByNameKey (pySortBySizeDesc st.photos) = pySortByNameKey st.photos
  have hpermSize : (pySortBySizeDesc st.photos).Perm st.photos := by
    unfold pySortBySizeDesc
    exact List.perm_insertionSort _ _
  have hperm1 : (pySortByNameKey (pySortBySizeDesc st.photos)).Perm st.photos :=
    (List.perm_insertionSort nameLe _).trans hpermSize
  have hperm2 : (pySortByNameKey st.photos).Perm st.photos :=
    List.perm_insertionSort nameLe st.photos
  exact eq_of_perm_of_sorted_nameKey _ _ (hperm1.trans hperm2.symm)
    (List.sorted_insertionSort nameLe _)
    (List.sorted_insertionSort nameLe _)
    (((hperm1.map nameKey).nodup_iff).mpr hnd)

/-- Witness for C8's amended theorem on a collection with distinct
case-folded paths. -/
theorem sort_name_independent_of_size_sort_witness :
    (set_sort ("Name".data)
        (set_sort ("Size".data) ⟨[phB, phA], "Date".data⟩)).photos =
      (set_sort ("Name".data) ⟨[phB, phA], "Date".data⟩).photos :=
  sort_name_independent_of_size_sort ⟨[phB, phA], "Date".data⟩ (by decide)

/-! ## Claim C5 -/

/-- Unfolding of the fallback index selection. -/
lemma semanticSelIdx_eq (nPhotos : Nat) (sims : List ℚ) :
    semanticSelIdx nPhotos sims =
      ((argsortAsc sims).reverse.take (min 10 nPhotos)).filter
        (fun i => simThreshold < simAt sims i) := rfl

/-- C5 (amended): in the semantic fallback, `search_photos` returns exactly
`semanticSelect` applied to the model's similarities; the selected indices
all exceed the `0.3` threshold, at most 10 are returned, they are ranked by
strictly descending similarity with ties broken by **descending** original
index (last-seen first — the reversal of a stable ascending argsort), and a
qualifying photo is only left out when 10 photos are returned. -/
theorem semantic_fallback_selection :
    ∀ (db : Db) (f : NlpSims) (photos : List Photo) (query : PyStr)
      (sims : List ℚ),
      query ≠ [] →
      tagResults db query = [] → personResults db query = [] →
      f (photos.map (fun p => p.tags)) query = .ok sims →
      sims.length = photos.length →
      search_photos db (some f) photos query = semanticSelect photos sims ∧
      (∀ i ∈ semanticSelIdx photos.length sims, simThreshold < simAt sims i) ∧
      (semanticSelIdx photos.length sims).length ≤ 10 ∧
      List.Pairwise (fun i j => simAt sims j < simAt sims i ∨
        (simAt sims j = simAt sims i ∧ j < i))
        (semanticSelIdx photos.length sims) ∧
      (∀ j, j < photos.length → simThreshold < simAt sims j →
        j ∈ semanticSelIdx photos.length sims ∨
          (semanticSelIdx photos.length sims).length = 10) := by
  intro db f photos query sims hq ht hp hf hlen
  refine ⟨?_, ?_, ?_, ?_, ?_⟩
  · simp [search_photos, searchBody, hq, ht, hp, hf]
  · intro i hi
    rw [semanticSelIdx_eq] at hi
    exact of_decide_eq_true (List.mem_filter.mp hi).2
  · rw [semanticSelIdx_eq]
    refine le_trans (List.length_filter_le _ _) ?_
    rw [List.length_take]
    exact le_trans (min_le_left _ _) (min_le_left _ _)
  · have hrev : List.Pairwise (fun i j => argsortLe sims j i)
        (argsortAsc sims).reverse :=
      List.pairwise_reverse.mpr (argsortAsc_sorted sims)
    have hpw : List.Pairwise (fun i j => argsortLe sims j i)
        (semanticSelIdx photos.length sims) :=
      List.Pairwise.sublist (semanticSelIdx_sublist photos.length sims) hrev
    have hnd : (semanticSelIdx photos.length sims).Nodup :=
      List.Nodup.sublist (semanticSelIdx_sublist photos.length sims)
        (List.nodup_reverse.mpr (argsortAsc_nodup sims))
    refine (List.Pairwise.and hpw hnd).imp ?_
    intro a b hab
    rcases hab.1 with h | ⟨he, hle⟩
    · exact Or.inl h
    · exact Or.inr ⟨he, lt_of_le_of_ne hle (fun hc => hab.2 hc.symm)⟩
  · intro j hj hthr
    have hjrev : j ∈ (argsortAsc sims).reverse := by
      rw [List.mem_reverse]
      exact ((argsortAsc_perm sims).mem_iff).mpr
        (List.mem_range.mpr (by rw [hlen]; exact hj))
    have hjsplit : j ∈ (argsortAsc sims).reverse.take (min 10 photos.length)
        ++ (argsortAsc sims).reverse.drop (min 10 photos.length) := by
      rw [List.take_append_drop]
      exact hjrev
    rcases List.mem_append.mp hjsplit with hin | hout
    · left
      rw [semanticSelIdx_eq]
      exact List.mem_filter.mpr ⟨hin, decide_eq_true hthr⟩
    · right
      have hrevS : List.Sorted (fun i j => argsortLe sims j i)
          (argsortAsc sims).reverse :=
        List.pairwise_reverse.mpr (argsortAsc_sorted sims)
      have hall : ∀ i ∈ (argsortAsc sims).reverse.take (min 10 photos.length),
          decide (simThreshold < simAt sims i) = true := by
        intro i hi
        have hrel : argsortLe sims j i :=
          List.Sorted.rel_of_mem_take_of_mem_drop hrevS hi hout
        have hle : simAt sims j ≤ simAt sims i := by
          rcases hrel with h | ⟨he, _⟩
          · exact le_of_lt h
          · exact le_of_eq he
        exact decide_eq_true (lt_of_lt_of_le hthr hle)
      have hfeq :
          ((argsortAsc sims).reverse.take (min 10 photos.length)).filter
              (fun i => simThreshold < simAt sims i) =
            (argsortAsc sims).reverse.take (min 10 photos.length) :=
        List.filter_eq_self.mpr hall
      have hlenrev : (argsortAsc sims).reverse.length = photos.length := by
        rw [List.length_reverse, argsortAsc_length, hlen]
      have hdropne : (argsortAsc sims).reverse.drop (min 10 photos.length) ≠ [] := by
        intro hnil
        rw [hnil] at hout
        exact absurd hout (List.not_mem_nil j)
      have htklt : min 10 photos.length < (argsortAsc sims).reverse.length := by
        by_contra hcon
        push_neg at hcon
        exact hdropne (List.drop_eq_nil_iff.mpr hcon)
      rw [semanticSelIdx_eq, hfeq, List.length_take]
      rw [hlenrev] at htklt
      omega

/-- Witness for C5's amended theorem: similarities `[0.5, 0.2]` on the
two-photo collection select exactly photo A. -/
theorem semantic_fallback_selection_witness :
    search_photos dbEmpty (some nlpSplit) [phA, phB] ("sunset".data) =
      semanticSelect [phA, phB] [mkRat 1 2, mkRat 1 5] ∧
    search_photos dbEmpty (some nlpSplit) [phA, phB] ("sunset".data) = [phA] :=
  ⟨(semantic_fallback_selection dbEmpty nlpSplit [phA, phB] ("sunset".data)
      [mkRat 1 2, mkRat 1 5] (by decide) rfl rfl rfl (by decide)).1,
    by decide⟩

/-- Counterexample to C5 as stated: with similarities tied at `0.5 > 0.3`
for photos A (index 0) and B (index 1), `search_photos` returns `[B, A]` —
the later photo first — whereas the claimed stable first-seen tie-break
would return `[A, B]`; reversing a stable ascending argsort puts equal
similarities in descending index order. -/
theorem semantic_fallback_tie_counterexample :
    nlpTied ([phA, phB].map (fun p => p.tags)) ("sunset".data) =
      .ok [mkRat 1 2, mkRat 1 2] ∧
    search_photos dbEmpty (some nlpTied) [phA, phB] ("sunset".data) =
      [phB, phA] ∧
    [phB, phA] ≠ [phA, phB] := by
  refine ⟨rfl, by decide, by decide⟩
